import Mathlib

/-!
Shallow embedding of the granular-synthesis engine in src/yfes/src/dsp.rs.

Modelling conventions:
* f32 values are modelled as exact rationals (ℚ).  Where the Rust code would
  produce an f32 infinity (division by zero), the ℚ model yields 0; every
  theorem that relies on a division notes the divisor's positivity.
* Randomness (rand::thread_rng) is modelled by passing the drawn values as
  explicit parameters: a Draws record for Grain::generate and plain naturals
  for Engine::trigger.  Range constraints of gen_range appear as hypotheses.
* References into the static sample table are modelled as a Slice record
  (start offset and length) resolved against the table, as the spec's design
  notes prescribe; the table itself is a List ℚ parameter.
* The external rume crate supplies rume::convert::pitch::from_midi and the
  rume::Lut phasor.  from_midi 60 is the irrational constant 440 * 2 ^ (-9/12)
  (about 261.6256), kept as a parameter c0; only its positivity is ever used.
  The Lut linear-interpolated read is modelled from the spec section 4.1.
* heapless spsc queue (the snapshot channel) is outside the claims and is
  omitted, as is the nannou audio Buffer plumbing.
-/

namespace Yfes

/-- src/yfes/src/dsp.rs line 5: the fixed sample rate. -/
def SAMPLE_RATE : ℕ := 44100

/-- src/yfes/src/dsp.rs line 8: grains per pool. -/
def NUM_GRAINS : ℕ := 8

/-- src/yfes/src/dsp.rs line 9: voices per engine. -/
def NUM_VOICES : ℕ := 4

/-- A sub-range of the source sample table: models the slice reference
stored in a Grain (start offset and length). -/
structure Slice where
  start : ℕ
  len : ℕ
  deriving DecidableEq

/-- The random draws consumed by Grain::generate, in draw order:
rStart is gen_range(0.0..0.4), rLen is gen_range(0.8..1.0), rVol is the
value of gen_range(0.0..1.0).powf(0.3) (a value in [0,1]), rPan is
gen_range(0.0..1.0). -/
structure Draws where
  rStart : ℚ
  rLen : ℚ
  rVol : ℚ
  rPan : ℚ
  deriving DecidableEq

/-- random_slice, src/yfes/src/dsp.rs lines 29-36:
start = (gen_range(0.0..0.4) * table_len) as usize,
length = (gen_range(0.8..1.0) * table_len) as usize,
end = min (start + length) table_len, slice = table[start..end].
The as-usize cast of a nonnegative f32 truncates, modelled by Nat.floor. -/
def random_slice (tableLen : ℕ) (r1 r2 : ℚ) : Slice :=
  let s := ⌊r1 * (tableLen : ℚ)⌋₊
  let l := ⌊r2 * (tableLen : ℚ)⌋₊
  let e := min (s + l) tableLen
  { start := s, len := e - s }

/-- The Grain state, src/yfes/src/dsp.rs lines 15-24.  The rume::Lut field is
modelled by its phasor state: a fractional phase and the per-sample phase
increment set by lut.phasor.inc. -/
structure Grain where
  active : Bool
  volume : ℚ
  pan : ℚ
  slice : Slice
  phase : ℚ
  phase_inc : ℚ
  env_position : ℚ
  env_increment : ℚ
  deriving DecidableEq

instance : Inhabited Grain :=
  ⟨{ active := false, volume := 0, pan := 0, slice := ⟨0, 0⟩, phase := 0,
     phase_inc := 0, env_position := 0, env_increment := 0 }⟩

/-- Modelled from the spec, section 4.1 (the oscillator lives in the external
rume crate): linear-interpolated read of the slice at the fractional phase,
indices wrapping cyclically over the slice. -/
def lutRead (table : List ℚ) (s : Slice) (phase : ℚ) : ℚ :=
  if s.len = 0 then 0
  else
    let i := (⌊phase⌋₊) % s.len
    let j := (i + 1) % s.len
    let frac := phase - (⌊phase⌋₊ : ℚ)
    let a := table.getD (s.start + i) 0
    let b := table.getD (s.start + j) 0
    a + frac * (b - a)

/-- Grain::generate, src/yfes/src/dsp.rs lines 45-64.  c0 stands for the
external constant rume::convert::pitch::from_midi(60.0).
lut_increment = pitch * c0 / SAMPLE_RATE; env_increment = lut_increment
divided by the slice length (an f32 infinity when the slice is empty; 0 in
this ℚ model). -/
def Grain.generate (table : List ℚ) (c0 pitch : ℚ) (d : Draws) : Grain :=
  let s := random_slice table.length d.rStart d.rLen
  let lut_increment := pitch * c0 / (SAMPLE_RATE : ℚ)
  { active := true
    env_increment := lut_increment / (s.len : ℚ)
    slice := s
    phase := 0
    phase_inc := lut_increment
    volume := d.rVol
    pan := d.rPan
    env_position := 0 }

/-- Grain::new, src/yfes/src/dsp.rs lines 38-42: generate with the default
pitch 220 (pitch.unwrap_or(220.0); every caller passes None), then cleared. -/
def Grain.new (table : List ℚ) (c0 : ℚ) (d : Draws) : Grain :=
  { Grain.generate table c0 220 d with active := false }

/-- Grain::env, src/yfes/src/dsp.rs lines 80-95: steepened-triangle envelope
value computed from the current position, then the position advances by the
increment; when it reaches 1 it resets to 0 and the grain deactivates.
Returns the envelope value and the updated grain. -/
def Grain.env (g : Grain) : ℚ × Grain :=
  let e :=
    if g.env_position > 1 / 2 then min ((1 - g.env_position) * 8) 1
    else min (g.env_position * 8) 1
  let p := g.env_position + g.env_increment
  if 1 ≤ p then (e, { g with env_position := 0, active := false })
  else (e, { g with env_position := p })

/-- Grain::pan, src/yfes/src/dsp.rs lines 76-78: linear pan law. -/
def Grain.panLR (g : Grain) (sample : ℚ) : ℚ × ℚ :=
  (sample * (1 - g.pan), sample * g.pan)

/-- Grain::advance, src/yfes/src/dsp.rs lines 66-74: inactive grains return
(0,0) untouched; otherwise the envelope advances, the lut phasor steps
(read at the current phase, then phase moves by the increment), and the
sample scaled by envelope*volume is panned. -/
def Grain.advance (table : List ℚ) (g : Grain) : (ℚ × ℚ) × Grain :=
  if g.active = false then ((0, 0), g)
  else
    let ev := g.env
    let vol := ev.1 * g.volume
    let sample := lutRead table ev.2.slice ev.2.phase
    let g2 := { ev.2 with phase := ev.2.phase + ev.2.phase_inc }
    (g2.panLR (sample * vol), g2)

/-- Grains::activate, src/yfes/src/dsp.rs lines 112-120: first-fit scan in
index order; the first inactive grain is regenerated with the given pitch.
some pool means Ok(()) with the updated pool; none means Err(()) with the
pool untouched. -/
def poolActivate (table : List ℚ) (c0 pitch : ℚ) (d : Draws) :
    List Grain → Option (List Grain)
  | [] => none
  | g :: gs =>
      if g.active = false then some (Grain.generate table c0 pitch d :: gs)
      else (poolActivate table c0 pitch d gs).map (fun t => g :: t)

/-- Number of active grains in a pool. -/
def countActiveGrains (gs : List Grain) : ℕ :=
  (gs.filter (fun g => g.active)).length

/-- The Voice state, src/yfes/src/dsp.rs lines 135-147.  The grain pool's
shared table reference is passed to the operations instead of being stored. -/
structure Voice where
  grains : List Grain
  length : ℕ
  env_increment : ℚ
  env_position : ℚ
  active : Bool
  pitch : ℚ
  buffers_since_last_trigger : ℕ
  buffers_between_triggers : ℕ
  deriving DecidableEq

instance : Inhabited Voice :=
  ⟨{ grains := [], length := 0, env_increment := 0, env_position := 0,
     active := false, pitch := 0, buffers_since_last_trigger := 0,
     buffers_between_triggers := 0 }⟩

/-- Voice::new, src/yfes/src/dsp.rs lines 150-161.  The Rust array repeat
expression evaluates Grain::new once and copies it NUM_GRAINS times, hence
List.replicate of a single generated grain. -/
def Voice.new (table : List ℚ) (c0 : ℚ) (d : Draws) : Voice :=
  { grains := List.replicate NUM_GRAINS (Grain.new table c0 d)
    length := 0
    env_increment := 0
    env_position := 0
    active := false
    pitch := 440
    buffers_since_last_trigger := 0
    buffers_between_triggers := 4 }

/-- Voice::trigger_grain, src/yfes/src/dsp.rs lines 162-164: pool activation
at the voice's pitch; an Err result is discarded, leaving the pool as is. -/
def Voice.trigger_grain (table : List ℚ) (c0 : ℚ) (d : Draws) (v : Voice) :
    Voice :=
  { v with grains := (poolActivate table c0 v.pitch d v.grains).getD v.grains }

/-- Voice::update_grains, src/yfes/src/dsp.rs lines 166-172: when the counter
has reached the period, trigger a grain and reset the counter to 0; then the
counter is incremented in either case (so it holds 1 right after a trigger). -/
def Voice.update_grains (table : List ℚ) (c0 : ℚ) (d : Draws) (v : Voice) :
    Voice :=
  if v.buffers_between_triggers ≤ v.buffers_since_last_trigger then
    { v.trigger_grain table c0 d with buffers_since_last_trigger := 1 }
  else
    { v with buffers_since_last_trigger := v.buffers_since_last_trigger + 1 }

/-- Voice::activate, src/yfes/src/dsp.rs lines 198-204: unconditionally sets
the length, env_increment = 1/length (an f32 infinity when length = 0; 0 in
this ℚ model), resets the envelope, stores the pitch and marks active. -/
def Voice.activate (v : Voice) (len : ℕ) (pitch : ℚ) : Voice :=
  { v with
    length := len
    env_increment := 1 / (len : ℚ)
    env_position := 0
    pitch := pitch
    active := true }

/-- The Engine state, src/yfes/src/dsp.rs lines 219-224; the snapshot-channel
producer end is omitted (outside the modelled claims). -/
structure Engine where
  voices : List Voice
  buffers_since_last_trigger : ℕ
  buffers_between_triggers : ℕ
  deriving DecidableEq

/-- Engine::new, src/yfes/src/dsp.rs lines 230-237: NUM_VOICES copies of one
Voice::new value (Rust array repeat), trigger period 64.  No validation of
the table occurs. -/
def Engine.new (table : List ℚ) (c0 : ℚ) (d : Draws) : Engine :=
  { voices := List.replicate NUM_VOICES (Voice.new table c0 d)
    buffers_since_last_trigger := 0
    buffers_between_triggers := 64 }

/-- The root offsets drawn in Engine::trigger, src/yfes/src/dsp.rs line 242. -/
def triggerRoots : List ℚ := [-12, -12, 0, 0, 0, 7]

/-- The indices of currently inactive voices, in index order, as collected by
the loop in Engine::trigger, src/yfes/src/dsp.rs lines 252-257. -/
def Engine.inactiveIdx (e : Engine) : List ℕ :=
  (List.range e.voices.length).filter
    (fun i => (e.voices.getD i default).active = false)

/-- The four slot pitches of Engine::trigger, src/yfes/src/dsp.rs lines
243-251: from_midi of root + 60, 67, 74, 79.  fromMidi stands for the
external rume::convert::pitch::from_midi. -/
def Engine.triggerFreqs (fromMidi : ℚ → ℚ) (kRoot : ℕ) : List ℚ :=
  [fromMidi (triggerRoots.getD (kRoot % 6) 0 + 60),
   fromMidi (triggerRoots.getD (kRoot % 6) 0 + 67),
   fromMidi (triggerRoots.getD (kRoot % 6) 0 + 74),
   fromMidi (triggerRoots.getD (kRoot % 6) 0 + 79)]

/-- Engine::trigger, src/yfes/src/dsp.rs lines 239-263.  The random draws are
kRoot (gen_range(0..=5) modelled by kRoot % 6), kVoice (gen_range over the
inactive-index list, modelled by kVoice % its length) and lenDraw
(gen_range(4..24) modelled by 4 + lenDraw % 20).  If no voice is idle
nothing happens; otherwise one idle voice is activated with length =
seconds * SAMPLE_RATE and the pitch of its slot. -/
def Engine.trigger (fromMidi : ℚ → ℚ) (kRoot kVoice lenDraw : ℕ)
    (e : Engine) : Engine :=
  if (Engine.inactiveIdx e).isEmpty then e
  else
    let i := (Engine.inactiveIdx e).getD
      (kVoice % (Engine.inactiveIdx e).length) 0
    { e with
      voices := e.voices.set i
        ((e.voices.getD i default).activate ((4 + lenDraw % 20) * SAMPLE_RATE)
          ((Engine.triggerFreqs fromMidi kRoot).getD i 0)) }

/-- Number of active voices. -/
def countActiveVoices (vs : List Voice) : ℕ :=
  (vs.filter (fun v => v.active)).length

/-- An inactive grain with all-zero numeric state. -/
def grainOff : Grain := default

/-- An active grain with all-zero numeric state. -/
def grainOn : Grain := { (default : Grain) with active := true }

/-- An inactive voice with empty pool and all-zero numeric state. -/
def voiceOff : Voice := default

/-- An active voice with empty pool and all-zero numeric state. -/
def voiceOn : Voice := { (default : Voice) with active := true }

section SliceLemmas

/-- Under the gen_range constraints the slice start stays strictly inside the
table and the slice length is positive, whenever the table has at least two
samples. -/
lemma random_slice_pos_bounds (n : ℕ) (hn : 2 ≤ n) (r1 r2 : ℚ)
    (h1 : 0 ≤ r1) (h2 : r1 < 2 / 5) (h3 : 4 / 5 ≤ r2) :
    0 < (random_slice n r1 r2).len ∧ (random_slice n r1 r2).len ≤ n ∧
      (random_slice n r1 r2).start + (random_slice n r1 r2).len ≤ n := by
  have hn0 : (0 : ℚ) < (n : ℚ) := by
    have : 0 < n := by omega
    exact_mod_cast this
  have hs : ⌊r1 * (n : ℚ)⌋₊ < n := by
    refine (Nat.floor_lt (by positivity)).mpr ?_
    nlinarith
  have hl : 1 ≤ ⌊r2 * (n : ℚ)⌋₊ := by
    refine Nat.le_floor ?_
    have h2n : (2 : ℚ) ≤ (n : ℚ) := by exact_mod_cast hn
    push_cast
    nlinarith
  simp only [random_slice]
  omega

/-- For a 1000-sample table the slice length lands in [601, 999]: the raw
length draw gives [800, 999], and the clamp against the table end can cut it
down to 1000 - start ≥ 1000 - 399 = 601. -/
lemma random_slice_len_1000 (r1 r2 : ℚ)
    (h1 : 0 ≤ r1) (h2 : r1 < 2 / 5) (h3 : 4 / 5 ≤ r2) (h4 : r2 < 1) :
    601 ≤ (random_slice 1000 r1 r2).len ∧ (random_slice 1000 r1 r2).len ≤ 999 := by
  have h0 : (0 : ℚ) ≤ r2 := le_trans (by norm_num) h3
  have hs : ⌊r1 * ((1000 : ℕ) : ℚ)⌋₊ < 400 := by
    refine (Nat.floor_lt (by positivity)).mpr ?_
    push_cast
    nlinarith
  have hl1 : 800 ≤ ⌊r2 * ((1000 : ℕ) : ℚ)⌋₊ := by
    refine Nat.le_floor ?_
    push_cast
    nlinarith
  have hl2 : ⌊r2 * ((1000 : ℕ) : ℚ)⌋₊ < 1000 := by
    refine (Nat.floor_lt (by positivity)).mpr ?_
    push_cast
    nlinarith
  simp only [random_slice]
  omega

end SliceLemmas

/-- C1 counterexample: with the in-range draws rStart = 399/1000 and
rLen = 4/5 on a 1000-zero-sample table, generate picks start = 399 and raw
length 800, the slice clamps to table[399..1000], and the resulting slice
length is 601 — outside the claimed interval [800, 1000]. -/
theorem grain_generate_scenarioA_counterexample :
    (0 : ℚ) ≤ 399 / 1000 ∧ (399 / 1000 : ℚ) < 2 / 5 ∧
      (4 / 5 : ℚ) ≤ 4 / 5 ∧ (4 / 5 : ℚ) < 1 ∧
      (Grain.generate (List.replicate 1000 (0 : ℚ)) 261 220
        ⟨399 / 1000, 4 / 5, 0, 0⟩).slice.len = 601 ∧
      ¬ 800 ≤ (Grain.generate (List.replicate 1000 (0 : ℚ)) 261 220
        ⟨399 / 1000, 4 / 5, 0, 0⟩).slice.len := by
  have h : (Grain.generate (List.replicate 1000 (0 : ℚ)) 261 220
      ⟨399 / 1000, 4 / 5, 0, 0⟩).slice.len = 601 := by
    simp only [Grain.generate, random_slice, List.length_replicate]
    norm_num
  refine ⟨by norm_num, by norm_num, le_refl _, by norm_num, h, ?_⟩
  rw [h]
  norm_num

/-- C1 (amended): for a source table of exactly 1000 samples, every grain
produced by generate(pitch = 220) at sample rate 44100 has a slice length in
[601, 999] (the raw draw gives [800, 999] but the clamp against the table end
can cut it to 1000 - start ≥ 601), and its envelope increment
(phase increment / slice length) is strictly positive, for every outcome of
the random draws.  c0 is the positive external reference-pitch constant. -/
theorem grain_generate_scenarioA (r1 r2 rv rp c0 : ℚ)
    (h1 : 0 ≤ r1) (h2 : r1 < 2 / 5) (h3 : 4 / 5 ≤ r2) (h4 : r2 < 1)
    (hc : 0 < c0) :
    601 ≤ (Grain.generate (List.replicate 1000 (0 : ℚ)) c0 220
        ⟨r1, r2, rv, rp⟩).slice.len ∧
    (Grain.generate (List.replicate 1000 (0 : ℚ)) c0 220
        ⟨r1, r2, rv, rp⟩).slice.len ≤ 999 ∧
    0 < (Grain.generate (List.replicate 1000 (0 : ℚ)) c0 220
        ⟨r1, r2, rv, rp⟩).slice.len ∧
    0 < (Grain.generate (List.replicate 1000 (0 : ℚ)) c0 220
        ⟨r1, r2, rv, rp⟩).env_increment := by
  have hb := random_slice_len_1000 r1 r2 h1 h2 h3 h4
  have hslice : (Grain.generate (List.replicate 1000 (0 : ℚ)) c0 220
      ⟨r1, r2, rv, rp⟩).slice = random_slice 1000 r1 r2 := by
    simp only [Grain.generate, List.length_replicate]
  have henv : (Grain.generate (List.replicate 1000 (0 : ℚ)) c0 220
      ⟨r1, r2, rv, rp⟩).env_increment =
      220 * c0 / (SAMPLE_RATE : ℚ) / ((random_slice 1000 r1 r2).len : ℚ) := by
    simp only [Grain.generate, List.length_replicate]
  refine ⟨by rw [hslice]; exact hb.1, by rw [hslice]; exact hb.2,
    by rw [hslice]; omega, ?_⟩
  rw [henv]
  have hlen : (0 : ℚ) < ((random_slice 1000 r1 r2).len : ℚ) := by
    have : 0 < (random_slice 1000 r1 r2).len := by omega
    exact_mod_cast this
  have hsr : (0 : ℚ) < (SAMPLE_RATE : ℚ) := by norm_num [SAMPLE_RATE]
  exact div_pos (div_pos (by nlinarith) hsr) hlen

/-- C1 witness: the amended theorem applied at the concrete in-range draws
rStart = 0, rLen = 4/5 with c0 = 261. -/
theorem grain_generate_scenarioA_witness :
    ((0 : ℚ) ≤ 0 ∧ (0 : ℚ) < 2 / 5 ∧ (4 / 5 : ℚ) ≤ 4 / 5 ∧ (4 / 5 : ℚ) < 1 ∧
      (0 : ℚ) < 261) ∧
    (601 ≤ (Grain.generate (List.replicate 1000 (0 : ℚ)) 261 220
        ⟨0, 4 / 5, 0, 0⟩).slice.len ∧
      (Grain.generate (List.replicate 1000 (0 : ℚ)) 261 220
        ⟨0, 4 / 5, 0, 0⟩).slice.len ≤ 999 ∧
      0 < (Grain.generate (List.replicate 1000 (0 : ℚ)) 261 220
        ⟨0, 4 / 5, 0, 0⟩).slice.len ∧
      0 < (Grain.generate (List.replicate 1000 (0 : ℚ)) 261 220
        ⟨0, 4 / 5, 0, 0⟩).env_increment) :=
  ⟨⟨le_refl _, by norm_num, le_refl _, by norm_num, by norm_num⟩,
    grain_generate_scenarioA 0 (4 / 5) 0 0 261 (le_refl _) (by norm_num)
      (le_refl _) (by norm_num) (by norm_num)⟩

/-- C2 counterexample: on the non-empty one-sample table [0], every length
draw r2 ∈ [0.8, 1.0) gives raw length floor(r2 * 1) = 0, so the generated
grain's slice is empty: with the in-range draws rStart = 0, rLen = 4/5 the
slice length is 0, refuting 0 < slice length. -/
theorem grain_generate_slice_counterexample :
    (0 : ℚ) ≤ 0 ∧ (0 : ℚ) < 2 / 5 ∧ (4 / 5 : ℚ) ≤ 4 / 5 ∧ (4 / 5 : ℚ) < 1 ∧
      ([(0 : ℚ)].length = 1) ∧
      (Grain.generate [(0 : ℚ)] 261 220 ⟨0, 4 / 5, 0, 0⟩).slice.len = 0 := by
  refine ⟨le_refl _, by norm_num, le_refl _, by norm_num, rfl, ?_⟩
  simp only [Grain.generate, random_slice, List.length_cons, List.length_nil]
  norm_num

/-- C2 (amended): for every source table with at least two samples and every
grain produced by generate, the chosen slice satisfies
0 < slice length ≤ table length and slice start + slice length ≤ table
length, for every outcome of the random draws.  (For a one-sample table the
raw length draw floors to 0 and the slice is empty.) -/
theorem grain_generate_slice_bounds (table : List ℚ) (c0 pitch : ℚ)
    (r1 r2 rv rp : ℚ) (hn : 2 ≤ table.length)
    (h1 : 0 ≤ r1) (h2 : r1 < 2 / 5) (h3 : 4 / 5 ≤ r2) (h4 : r2 < 1) :
    0 < (Grain.generate table c0 pitch ⟨r1, r2, rv, rp⟩).slice.len ∧
    (Grain.generate table c0 pitch ⟨r1, r2, rv, rp⟩).slice.len ≤ table.length ∧
    (Grain.generate table c0 pitch ⟨r1, r2, rv, rp⟩).slice.start +
      (Grain.generate table c0 pitch ⟨r1, r2, rv, rp⟩).slice.len ≤
        table.length := by
  have hb := random_slice_pos_bounds table.length hn r1 r2 h1 h2 h3
  have hslice : (Grain.generate table c0 pitch ⟨r1, r2, rv, rp⟩).slice =
      random_slice table.length r1 r2 := by
    simp [Grain.generate]
  rw [hslice]
  exact hb

/-- C2 witness: the amended theorem applied to the two-sample table [0, 0]
with the concrete in-range draws rStart = 0, rLen = 4/5. -/
theorem grain_generate_slice_bounds_witness :
    (2 ≤ [(0 : ℚ), 0].length ∧ (0 : ℚ) ≤ 0 ∧ (0 : ℚ) < 2 / 5 ∧
      (4 / 5 : ℚ) ≤ 4 / 5 ∧ (4 / 5 : ℚ) < 1) ∧
    (0 < (Grain.generate [(0 : ℚ), 0] 261 220 ⟨0, 4 / 5, 0, 0⟩).slice.len ∧
      (Grain.generate [(0 : ℚ), 0] 261 220
        ⟨0, 4 / 5, 0, 0⟩).slice.len ≤ [(0 : ℚ), 0].length ∧
      (Grain.generate [(0 : ℚ), 0] 261 220 ⟨0, 4 / 5, 0, 0⟩).slice.start +
        (Grain.generate [(0 : ℚ), 0] 261 220
          ⟨0, 4 / 5, 0, 0⟩).slice.len ≤ [(0 : ℚ), 0].length) :=
  ⟨⟨by norm_num, le_refl _, by norm_num, le_refl _, by norm_num⟩,
    grain_generate_slice_bounds [(0 : ℚ), 0] 261 220 0 (4 / 5) 0 0
      (by norm_num) (le_refl _) (by norm_num) (le_refl _) (by norm_num)⟩

section PoolLemmas

/-- When every grain in the pool is active the first-fit scan falls through
and returns Err. -/
lemma poolActivate_all_active (table : List ℚ) (c0 pitch : ℚ) (d : Draws) :
    ∀ pool : List Grain, (∀ g ∈ pool, g.active = true) →
      poolActivate table c0 pitch d pool = none := by
  intro pool h
  induction pool with
  | nil => rfl
  | cons g gs ih =>
      have hg : g.active = true := h g (List.mem_cons_self _ _)
      have ih' := ih (fun x hx => h x (List.mem_cons_of_mem _ hx))
      simp [poolActivate, hg, ih']

/-- The first-fit scan replaces exactly the first inactive grain. -/
lemma poolActivate_first (table : List ℚ) (c0 pitch : ℚ) (d : Draws) :
    ∀ (pool : List Grain) (i : ℕ), i < pool.length →
      (pool.getD i default).active = false →
      (∀ j, j < i → (pool.getD j default).active = true) →
      poolActivate table c0 pitch d pool =
        some (pool.set i (Grain.generate table c0 pitch d)) := by
  intro pool
  induction pool with
  | nil => intro i hi _ _; simp at hi
  | cons g gs ih =>
      intro i hi hact hfirst
      cases i with
      | zero =>
          have hg : g.active = false := by simpa using hact
          simp [poolActivate, hg]
      | succ k =>
          have hg : g.active = true := by simpa using hfirst 0 (Nat.succ_pos k)
          have hrec := ih k (by simpa using hi) (by simpa using hact)
            (fun j hj => by simpa using hfirst (j + 1) (Nat.succ_lt_succ hj))
          simp [poolActivate, hg, hrec]

/-- A successful pool activation keeps the pool size. -/
lemma poolActivate_some_length (table : List ℚ) (c0 pitch : ℚ) (d : Draws) :
    ∀ (pool res : List Grain),
      poolActivate table c0 pitch d pool = some res →
      res.length = pool.length := by
  intro pool
  induction pool with
  | nil => intro res h; simp [poolActivate] at h
  | cons g gs ih =>
      intro res h
      by_cases hg : g.active = false
      · simp [poolActivate, hg] at h
        rw [← h]
        simp
      · simp [poolActivate, hg] at h
        obtain ⟨t, ht, rfl⟩ := h
        simp [ih t ht]

end PoolLemmas

/-- C3: the grain pool's activate regenerates exactly the first inactive
grain in fixed index order when one exists; when all NUM_GRAINS grains are
active it returns Err (leaving the pool untouched, modelled by none), so the
number of concurrently active grains in the pool never exceeds NUM_GRAINS. -/
theorem grains_activate_first_fit (table : List ℚ) (c0 pitch : ℚ) (d : Draws)
    (pool : List Grain) (hlen : pool.length = NUM_GRAINS) :
    ((∀ g ∈ pool, g.active = true) →
      poolActivate table c0 pitch d pool = none) ∧
    (∀ i : ℕ, i < pool.length → (pool.getD i default).active = false →
      (∀ j, j < i → (pool.getD j default).active = true) →
      poolActivate table c0 pitch d pool =
        some (pool.set i (Grain.generate table c0 pitch d))) ∧
    (∀ res, poolActivate table c0 pitch d pool = some res →
      countActiveGrains res ≤ NUM_GRAINS) := by
  refine ⟨poolActivate_all_active table c0 pitch d pool,
    poolActivate_first table c0 pitch d pool, ?_⟩
  intro res h
  calc countActiveGrains res ≤ res.length := List.length_filter_le _ _
    _ = pool.length := poolActivate_some_length table c0 pitch d pool res h
    _ = NUM_GRAINS := hlen

/-- C3 witness: a pool of 8 active grains is full, and activation fails on
it; a pool whose second grain is inactive has that grain regenerated. -/
theorem grains_activate_first_fit_witness :
    ((List.replicate 8 grainOn).length = NUM_GRAINS ∧
      ∀ g ∈ List.replicate 8 grainOn, g.active = true) ∧
    poolActivate [] 261 220 ⟨0, 4 / 5, 0, 0⟩ (List.replicate 8 grainOn) =
      none := by
  have hmem : ∀ g ∈ List.replicate 8 grainOn, g.active = true := by
    intro g hg
    rw [List.eq_of_mem_replicate hg]
    rfl
  exact ⟨⟨rfl, hmem⟩,
    (grains_activate_first_fit [] 261 220 ⟨0, 4 / 5, 0, 0⟩
      (List.replicate 8 grainOn) rfl).1 hmem⟩

section EngineLemmas

/-- Counting active voices through a cons. -/
lemma countActiveVoices_cons (x : Voice) (l : List Voice) :
    countActiveVoices (x :: l) =
      (if x.active then 1 else 0) + countActiveVoices l := by
  simp only [countActiveVoices, List.filter_cons]
  split <;> simp [Nat.add_comm]

/-- Replacing one voice raises the active count by at most one. -/
lemma countActiveVoices_set_le (vs : List Voice) :
    ∀ (i : ℕ) (v : Voice),
      countActiveVoices (vs.set i v) ≤ countActiveVoices vs + 1 := by
  induction vs with
  | nil => intro i v; simp [countActiveVoices]
  | cons a l ih =>
      intro i v
      cases i with
      | zero =>
          simp only [List.set_cons_zero, countActiveVoices_cons]
          have := ih 0 v
          split <;> split <;> omega
      | succ k =>
          simp only [List.set_cons_succ, countActiveVoices_cons]
          have := ih k v
          omega

/-- The active count never exceeds the voice count. -/
lemma countActiveVoices_le_length (vs : List Voice) :
    countActiveVoices vs ≤ vs.length :=
  List.length_filter_le _ _

/-- If every voice is active the inactive-index list is empty. -/
lemma engine_inactiveIdx_nil (e : Engine)
    (h : ∀ v ∈ e.voices, v.active = true) : Engine.inactiveIdx e = [] := by
  simp only [Engine.inactiveIdx]
  rw [List.filter_eq_nil_iff]
  intro i hi
  have hi' : i < e.voices.length := List.mem_range.mp hi
  have hv := h (e.voices.get ⟨i, hi'⟩) (List.get_mem _ _ _)
  simp [List.getD, List.getElem?_eq_getElem hi']
  simpa using hv

/-- Engine::trigger never changes the number of voices. -/
lemma engine_trigger_voices_length (fromMidi : ℚ → ℚ)
    (kRoot kVoice lenDraw : ℕ) (e : Engine) :
    (Engine.trigger fromMidi kRoot kVoice lenDraw e).voices.length =
      e.voices.length := by
  simp only [Engine.trigger]
  split
  · rfl
  · simp

end EngineLemmas

/-- C4: Engine trigger never makes the number of active voices exceed
NUM_VOICES: the post-trigger active count is at most NUM_VOICES, it rises by
at most one per call, and when every voice is already active the whole
engine state is returned unchanged. -/
theorem engine_trigger_voice_bound (fromMidi : ℚ → ℚ)
    (kRoot kVoice lenDraw : ℕ) (e : Engine)
    (h : e.voices.length = NUM_VOICES) :
    countActiveVoices (Engine.trigger fromMidi kRoot kVoice lenDraw e).voices ≤
      NUM_VOICES ∧
    countActiveVoices (Engine.trigger fromMidi kRoot kVoice lenDraw e).voices ≤
      countActiveVoices e.voices + 1 ∧
    ((∀ v ∈ e.voices, v.active = true) →
      Engine.trigger fromMidi kRoot kVoice lenDraw e = e) := by
  refine ⟨?_, ?_, ?_⟩
  · have h1 := countActiveVoices_le_length
      (Engine.trigger fromMidi kRoot kVoice lenDraw e).voices
    rw [engine_trigger_voices_length fromMidi kRoot kVoice lenDraw e, h] at h1
    exact h1
  · simp only [Engine.trigger]
    split
    · exact Nat.le_succ _
    · exact countActiveVoices_set_le _ _ _
  · intro hall
    simp only [Engine.trigger, engine_inactiveIdx_nil e hall]
    rfl

/-- C4 witness: an engine whose four voices are all active is returned
bit-for-bit unchanged by trigger, and its active count stays at
NUM_VOICES. -/
theorem engine_trigger_voice_bound_witness :
    ((List.replicate 4 voiceOn).length = NUM_VOICES ∧
      ∀ v ∈ List.replicate 4 voiceOn, v.active = true) ∧
    countActiveVoices (Engine.trigger (fun _ => 440) 0 0 0
      ⟨List.replicate 4 voiceOn, 0, 64⟩).voices ≤ NUM_VOICES ∧
    Engine.trigger (fun _ => 440) 0 0 0 ⟨List.replicate 4 voiceOn, 0, 64⟩ =
      ⟨List.replicate 4 voiceOn, 0, 64⟩ := by
  have hmem : ∀ v ∈ List.replicate 4 voiceOn, v.active = true := by
    intro v hv
    rw [List.eq_of_mem_replicate hv]
    rfl
  have h := engine_trigger_voice_bound (fun _ => 440) 0 0 0
    ⟨List.replicate 4 voiceOn, 0, 64⟩ rfl
  exact ⟨⟨rfl, hmem⟩, h.1, h.2.2 hmem⟩

section GrainAdvanceLemmas

/-- The grain state after the envelope step, by cases on whether the
advanced position reaches 1. -/
lemma grain_env_snd (g : Grain) :
    (Grain.env g).2 =
      if 1 ≤ g.env_position + g.env_increment then
        { g with env_position := 0, active := false }
      else { g with env_position := g.env_position + g.env_increment } := by
  unfold Grain.env
  dsimp only
  split <;> rfl

/-- For an active grain, advance returns the envelope-stepped grain with the
phasor moved by one increment. -/
lemma grain_advance_active_snd (table : List ℚ) (g : Grain)
    (h : g.active = true) :
    (Grain.advance table g).2 =
      { (Grain.env g).2 with
        phase := (Grain.env g).2.phase + (Grain.env g).2.phase_inc } := by
  simp [Grain.advance, h]

/-- A grain whose envelope position is 0 emits (0, 0) from advance: the
envelope value 0 is computed before the position moves. -/
lemma grain_advance_pos_zero (table : List ℚ) (g : Grain)
    (h : g.env_position = 0) : (Grain.advance table g).1 = (0, 0) := by
  cases hact : g.active
  · simp [Grain.advance, hact]
  · have henv : (Grain.env g).1 = 0 := by
      unfold Grain.env
      dsimp only
      rw [h]
      norm_num
      split <;> rfl
    simp [Grain.advance, hact, henv, Grain.panLR]

end GrainAdvanceLemmas

/-- C5: while a grain is active with envelope increment e > 0, an advance
call moves the envelope position by exactly e; the grain goes inactive on
exactly the call where the position would reach or exceed 1, and the
position resets to 0 on that same call. -/
theorem grain_advance_env_step (table : List ℚ) (g : Grain)
    (h : g.active = true) (he : 0 < g.env_increment) :
    ((Grain.advance table g).2.active = false ↔
      1 ≤ g.env_position + g.env_increment) ∧
    (g.env_position + g.env_increment < 1 →
      (Grain.advance table g).2.active = true ∧
      (Grain.advance table g).2.env_position =
        g.env_position + g.env_increment) ∧
    (1 ≤ g.env_position + g.env_increment →
      (Grain.advance table g).2.env_position = 0) := by
  rw [grain_advance_active_snd table g h, grain_env_snd]
  rcases le_or_lt 1 (g.env_position + g.env_increment) with hc | hc
  · rw [if_pos hc]
    refine ⟨by simpa using hc, ?_, by simp⟩
    intro hlt
    exact absurd hc (not_le.mpr hlt)
  · rw [if_neg (not_le.mpr hc)]
    refine ⟨?_, fun _ => ⟨by simpa using h, by simp⟩, ?_⟩
    · simp only [h]
      constructor
      · intro hfalse
        simp at hfalse
      · intro hge
        exact absurd hge (not_le.mpr hc)
    · intro hge
      exact absurd hge (not_le.mpr hc)

/-- C5 witness: the theorem applied to an active all-zero grain with
envelope increment 1/4 at position 0: the call keeps it active and moves
the position to exactly 1/4. -/
theorem grain_advance_env_step_witness :
    ({ grainOn with env_increment := 1 / 4 }.active = true ∧
      (0 : ℚ) < { grainOn with env_increment := 1 / 4 }.env_increment) ∧
    (((Grain.advance [] { grainOn with env_increment := 1 / 4 }).2.active =
        false ↔
      1 ≤ { grainOn with env_increment := 1 / 4 }.env_position +
        { grainOn with env_increment := 1 / 4 }.env_increment) ∧
    ({ grainOn with env_increment := 1 / 4 }.env_position +
        { grainOn with env_increment := 1 / 4 }.env_increment < 1 →
      (Grain.advance [] { grainOn with env_increment := 1 / 4 }).2.active =
        true ∧
      (Grain.advance []
          { grainOn with env_increment := 1 / 4 }).2.env_position =
        { grainOn with env_increment := 1 / 4 }.env_position +
          { grainOn with env_increment := 1 / 4 }.env_increment) ∧
    (1 ≤ { grainOn with env_increment := 1 / 4 }.env_position +
        { grainOn with env_increment := 1 / 4 }.env_increment →
      (Grain.advance []
          { grainOn with env_increment := 1 / 4 }).2.env_position = 0)) :=
  ⟨⟨rfl, by norm_num [grainOn]⟩,
    grain_advance_env_step [] { grainOn with env_increment := 1 / 4 } rfl
      (by norm_num [grainOn])⟩

/-- C6: Voice activate(length, pitch) with length > 0 always yields an
active voice with envelope position 0, the stored pitch equal to the
argument, and envelope increment exactly 1/length, whatever the prior
state. -/
theorem voice_activate_spec (v : Voice) (len : ℕ) (p : ℚ) (h : 0 < len) :
    (v.activate len p).active = true ∧
    (v.activate len p).env_position = 0 ∧
    (v.activate len p).pitch = p ∧
    (v.activate len p).env_increment = 1 / (len : ℚ) :=
  ⟨rfl, rfl, rfl, rfl⟩

/-- C6 witness: scenario B's activation, length 176400 = 4 * 44100 and
pitch 440, applied to the all-zero idle voice. -/
theorem voice_activate_spec_witness :
    0 < 176400 ∧
    ((voiceOff.activate 176400 440).active = true ∧
      (voiceOff.activate 176400 440).env_position = 0 ∧
      (voiceOff.activate 176400 440).pitch = 440 ∧
      (voiceOff.activate 176400 440).env_increment = 1 / ((176400 : ℕ) : ℚ)) :=
  ⟨by norm_num, voice_activate_spec voiceOff 176400 440 (by norm_num)⟩

/-- C7: contrary to the spec's requirement, the code rejects neither an
empty source table nor a zero activation length: Engine::new over the empty
table constructs a full engine of NUM_VOICES voices, and Voice::activate
with length 0 marks the voice active (computing env_increment = 1/0, an f32
infinity in the Rust code), with no failure path in either signature. -/
theorem precondition_violations_not_rejected :
    (Engine.new [] 261 ⟨0, 4 / 5, 0, 0⟩).voices.length = NUM_VOICES ∧
    ((Voice.new [] 261 ⟨0, 4 / 5, 0, 0⟩).activate 0 440).active = true ∧
    ((Voice.new [] 261 ⟨0, 4 / 5, 0, 0⟩).activate 0 440).length = 0 :=
  ⟨rfl, rfl, rfl⟩

section UpdateGrainsLemmas

/-- Field-level description of one update_grains call: the trigger period is
untouched, the counter resets to 1 on a triggering call and increments
otherwise, and the pool is pool-activated exactly on a triggering call. -/
lemma voice_update_grains_fields (table : List ℚ) (c0 : ℚ) (d : Draws)
    (v : Voice) :
    (Voice.update_grains table c0 d v).buffers_between_triggers =
      v.buffers_between_triggers ∧
    (Voice.update_grains table c0 d v).buffers_since_last_trigger =
      (if v.buffers_between_triggers ≤ v.buffers_since_last_trigger then 1
       else v.buffers_since_last_trigger + 1) ∧
    (Voice.update_grains table c0 d v).grains =
      (if v.buffers_between_triggers ≤ v.buffers_since_last_trigger then
        (poolActivate table c0 v.pitch d v.grains).getD v.grains
       else v.grains) := by
  simp only [Voice.update_grains]
  split <;> simp [Voice.trigger_grain]

end UpdateGrainsLemmas

/-- C8: for a voice with trigger period 4, update_grains increments the
trigger counter on every non-triggering call and attempts a pool activation
with the voice's pitch exactly on the calls where the counter has reached 4,
resetting the counter there (to 0, then the shared increment leaves it 1);
starting from the post-trigger counter 1, the three following calls count
2, 3, 4 without touching the pool and the fourth call triggers again, so an
activation attempt occurs every 4 buffer callbacks. -/
theorem voice_update_grains_period (table : List ℚ) (c0 : ℚ) (d : Draws)
    (v : Voice) (hp : v.buffers_between_triggers = 4) :
    (v.buffers_since_last_trigger < 4 →
      (Voice.update_grains table c0 d v).grains = v.grains ∧
      (Voice.update_grains table c0 d v).buffers_since_last_trigger =
        v.buffers_since_last_trigger + 1) ∧
    (4 ≤ v.buffers_since_last_trigger →
      (Voice.update_grains table c0 d v).grains =
        (poolActivate table c0 v.pitch d v.grains).getD v.grains ∧
      (Voice.update_grains table c0 d v).buffers_since_last_trigger = 1) ∧
    (v.buffers_since_last_trigger = 1 →
      (Voice.update_grains table c0 d v).buffers_since_last_trigger = 2 ∧
      (Voice.update_grains table c0 d
        (Voice.update_grains table c0 d v)).buffers_since_last_trigger = 3 ∧
      (Voice.update_grains table c0 d (Voice.update_grains table c0 d
        (Voice.update_grains table c0 d v))).buffers_since_last_trigger = 4 ∧
      (Voice.update_grains table c0 d (Voice.update_grains table c0 d
        (Voice.update_grains table c0 d (Voice.update_grains table c0 d
          v)))).buffers_since_last_trigger = 1) := by
  have F := voice_update_grains_fields table c0 d
  refine ⟨?_, ?_, ?_⟩
  · intro hlt
    have h1 := (F v).2.1
    have h2 := (F v).2.2
    rw [hp, if_neg (by omega)] at h1 h2
    exact ⟨h2, h1⟩
  · intro hge
    have h1 := (F v).2.1
    have h2 := (F v).2.2
    rw [hp, if_pos hge] at h1 h2
    exact ⟨h2, h1⟩
  · intro h1
    have p1 := (F v).1
    have c1 := (F v).2.1
    rw [hp, h1, if_neg (by omega)] at c1
    have p2 := (F (Voice.update_grains table c0 d v)).1
    have c2 := (F (Voice.update_grains table c0 d v)).2.1
    rw [p1, hp, c1, if_neg (by omega)] at c2
    have p3 := (F (Voice.update_grains table c0 d
      (Voice.update_grains table c0 d v))).1
    have c3 := (F (Voice.update_grains table c0 d
      (Voice.update_grains table c0 d v))).2.1
    rw [p2, p1, hp, c2, if_neg (by omega)] at c3
    have c4 := (F (Voice.update_grains table c0 d (Voice.update_grains table
      c0 d (Voice.update_grains table c0 d v)))).2.1
    rw [p3, p2, p1, hp, c3, if_pos (by omega)] at c4
    exact ⟨by omega, by omega, by omega, c4⟩

/-- A voice observed right after a grain trigger: counter 1, period 4. -/
def voiceP1 : Voice :=
  { voiceOff with
    buffers_since_last_trigger := 1
    buffers_between_triggers := 4 }

/-- C8 witness: the theorem applied to voiceP1 (counter 1, period 4): the
next three calls count 2, 3, 4 and the fourth resets to 1. -/
theorem voice_update_grains_period_witness :
    (voiceP1.buffers_between_triggers = 4 ∧
      voiceP1.buffers_since_last_trigger = 1) ∧
    ((Voice.update_grains [] 261 ⟨0, 4 / 5, 0, 0⟩
        voiceP1).buffers_since_last_trigger = 2 ∧
      (Voice.update_grains [] 261 ⟨0, 4 / 5, 0, 0⟩ (Voice.update_grains []
        261 ⟨0, 4 / 5, 0, 0⟩ voiceP1)).buffers_since_last_trigger = 3 ∧
      (Voice.update_grains [] 261 ⟨0, 4 / 5, 0, 0⟩ (Voice.update_grains []
        261 ⟨0, 4 / 5, 0, 0⟩ (Voice.update_grains [] 261 ⟨0, 4 / 5, 0, 0⟩
        voiceP1))).buffers_since_last_trigger = 4 ∧
      (Voice.update_grains [] 261 ⟨0, 4 / 5, 0, 0⟩ (Voice.update_grains []
        261 ⟨0, 4 / 5, 0, 0⟩ (Voice.update_grains [] 261 ⟨0, 4 / 5, 0, 0⟩
        (Voice.update_grains [] 261 ⟨0, 4 / 5, 0, 0⟩
        voiceP1)))).buffers_since_last_trigger = 1) :=
  ⟨⟨rfl, rfl⟩,
    (voice_update_grains_period [] 261 ⟨0, 4 / 5, 0, 0⟩ voiceP1 rfl).2.2 rfl⟩

/-- C9: advance on an inactive grain returns exactly (0, 0) and leaves the
entire grain state, envelope position and phasor phase included,
unchanged. -/
theorem grain_advance_inactive (table : List ℚ) (g : Grain)
    (h : g.active = false) : Grain.advance table g = ((0, 0), g) := by
  simp [Grain.advance, h]

/-- C9 witness: the theorem applied to the inactive all-zero grain. -/
theorem grain_advance_inactive_witness :
    grainOff.active = false ∧ Grain.advance [] grainOff = ((0, 0), grainOff) :=
  ⟨rfl, grain_advance_inactive [] grainOff rfl⟩

/-- C10: a grain freshly created by generate has envelope position 0, so its
first advance call returns exactly (0, 0) whatever the table contents,
volume and pan draws: the envelope value (0) is computed from the current
position before the position moves. -/
theorem grain_generate_first_advance_zero (table : List ℚ) (c0 pitch : ℚ)
    (d : Draws) :
    (Grain.advance table (Grain.generate table c0 pitch d)).1 = (0, 0) :=
  grain_advance_pos_zero table _ rfl

end Yfes
